import Mathlib

/-!
# SFG Studio: sequencer core and WAV encoder

A shallow embedding of `script.js` (step sequencer, piano roll, transport,
offline export, PCM/WAV encoder, project load) together with the properties
proved about it.

Conventions of the embedding.

* An `ArrayBuffer` seen through a `DataView` is a list of bytes (`Nat` below 256).
  Every `DataView` setter checks its range as the platform does and returns
  `none` where the platform throws `RangeError`.
* Integer arguments of `setUint16` / `setUint32` are natural numbers reduced
  modulo `2^16` / `2^32` (the platform conversions `ToUint16` / `ToUint32`).
* Audio samples are rationals.  Every finite 32-bit float is a rational, and the
  products `sample * 0x8000`, `sample * 0x7FFF` of a clamped sample are exact in
  double precision, so the arithmetic below is the arithmetic the code performs
  on finite samples.
* The sample rate is a natural number of hertz.
-/

namespace SFG

/-! ## Definitions -/

/-! ### PCM/WAV encoder (`bufferToWave`) -/

/-- Contents of an `ArrayBuffer`, one natural number below 256 per byte. -/
abbrev Bytes := List Nat

/-- `DataView.setUint8(byteOffset, value)`. -/
def setUint8 (view : Bytes) (byteOffset value : Nat) : Option Bytes :=
  if byteOffset + 1 ≤ view.length then some (view.set byteOffset (value % 256)) else none

/-- `DataView.setUint16(byteOffset, value, true)`: little-endian. -/
def setUint16 (view : Bytes) (byteOffset value : Nat) : Option Bytes :=
  if byteOffset + 2 ≤ view.length then
    let v := value % 65536
    some ((view.set byteOffset (v % 256)).set (byteOffset + 1) (v / 256 % 256))
  else none

/-- `DataView.setUint32(byteOffset, value, true)`: little-endian. -/
def setUint32 (view : Bytes) (byteOffset value : Nat) : Option Bytes :=
  if byteOffset + 4 ≤ view.length then
    let v := value % 4294967296
    some ((((view.set byteOffset (v % 256)).set (byteOffset + 1) (v / 256 % 256)).set
      (byteOffset + 2) (v / 65536 % 256)).set (byteOffset + 3) (v / 16777216 % 256))
  else none

/-- The integer part of a number, rounding toward zero (first step of `ToInt16`). -/
def truncate (x : ℚ) : Int := Int.tdiv x.num x.den

/-- The platform conversion `ToInt16`, as the unsigned 16-bit pattern it stores:
truncate, then reduce modulo `2^16`. -/
def toUint16 (x : ℚ) : Nat := (truncate x % 65536).toNat

/-- `DataView.setInt16(byteOffset, value, true)`: little-endian two's complement. -/
def setInt16 (view : Bytes) (byteOffset : Nat) (value : ℚ) : Option Bytes :=
  setUint16 view byteOffset (toUint16 value)

/-- The loop of `writeString`, from character `i` on: `view.setUint8(offset + i, charCode)`. -/
def writeStringFrom (view : Bytes) (offset : Nat) : List Char → Option Bytes
  | [] => some view
  | c :: cs => do
    let view ← setUint8 view offset c.toNat
    writeStringFrom view (offset + 1) cs

/-- The local helper `writeString(view, offset, string)` of `bufferToWave`. -/
def writeString (view : Bytes) (offset : Nat) (string : String) : Option Bytes :=
  writeStringFrom view offset string.toList

/-- An `AudioBuffer`: `getChannelData c i` is sample `i` of channel `c`. -/
structure AudioBuffer where
  numberOfChannels : Nat
  sampleRate : Nat
  length : Nat
  getChannelData : Nat → Nat → ℚ

/-- Body of the inner loop of `bufferToWave`: clamp, scale, `setInt16`, `pos += 2`.
The state is the pair `(view, pos)`. -/
def writeSample (abuffer : AudioBuffer) (i : Nat) (st : Bytes × Nat) (channel : Nat) :
    Option (Bytes × Nat) := do
  let sample := max (-1) (min 1 (abuffer.getChannelData channel i))
  let sample := if sample < 0 then sample * 0x8000 else sample * 0x7FFF
  let view ← setInt16 st.1 st.2 sample
  pure (view, st.2 + 2)

/-- Body of the outer loop of `bufferToWave`: one frame, every channel in turn. -/
def writeFrame (abuffer : AudioBuffer) (numOfChan : Nat) (st : Bytes × Nat) (i : Nat) :
    Option (Bytes × Nat) :=
  (List.range numOfChan).foldlM (writeSample abuffer i) st

/-- The writes under the comment `RIFF chunk descriptor` of `bufferToWave`. -/
def writeRiffDescriptor (view : Bytes) (length : Nat) : Option Bytes := do
  let view ← writeString view 0 "RIFF"
  let view ← setUint32 view 4 (length - 8)
  writeString view 8 "WAVE"

/-- The writes under the comment `fmt subchunk` of `bufferToWave`. -/
def writeFmtSubchunk (view : Bytes) (numOfChan sampleRate : Nat) : Option Bytes := do
  let view ← writeString view 12 "fmt "
  let view ← setUint32 view 16 16
  let view ← setUint16 view 20 1
  let view ← setUint16 view 22 numOfChan
  let view ← setUint32 view 24 sampleRate
  let view ← setUint32 view 28 (sampleRate * 2 * numOfChan)
  let view ← setUint16 view 32 (numOfChan * 2)
  setUint16 view 34 16

/-- The writes under the comment `data subchunk` of `bufferToWave`. -/
def writeDataSubchunk (view : Bytes) (length : Nat) : Option Bytes := do
  let view ← writeString view 36 "data"
  setUint32 view 40 (length - 44)

/-- The function `bufferToWave(abuffer, len)`; the result is the content of the
`ArrayBuffer` wrapped in the returned `Blob`.  The header writes are grouped as
the comments of the source group them. -/
def bufferToWave (abuffer : AudioBuffer) (len : Nat) : Option Bytes := do
  let numOfChan := abuffer.numberOfChannels
  let length := len * numOfChan * 2 + 44
  let view : Bytes := List.replicate length 0
  let sampleRate := abuffer.sampleRate
  let view ← writeRiffDescriptor view length
  let view ← writeFmtSubchunk view numOfChan sampleRate
  let view ← writeDataSubchunk view length
  let (view, _) ← (List.range len).foldlM (writeFrame abuffer numOfChan) (view, 44)
  pure view

/-! #### Reading a WAV file back, and the closed form of the encoder output -/

/-- Little-endian unsigned 16-bit field at `byteOffset`. -/
def getUint16 (bytes : Bytes) (byteOffset : Nat) : Nat :=
  bytes.getD byteOffset 0 + 256 * bytes.getD (byteOffset + 1) 0

/-- Little-endian unsigned 32-bit field at `byteOffset`. -/
def getUint32 (bytes : Bytes) (byteOffset : Nat) : Nat :=
  bytes.getD byteOffset 0 + 256 * bytes.getD (byteOffset + 1) 0
    + 65536 * bytes.getD (byteOffset + 2) 0 + 16777216 * bytes.getD (byteOffset + 3) 0

/-- Little-endian signed (two's complement) 16-bit field at `byteOffset`. -/
def getInt16 (bytes : Bytes) (byteOffset : Nat) : Int :=
  if getUint16 bytes byteOffset < 32768 then (getUint16 bytes byteOffset : Int)
  else (getUint16 bytes byteOffset : Int) - 65536

/-- The bytes from `byteOffset` on spell the ASCII string `text`. -/
def asciiAt (bytes : Bytes) (byteOffset : Nat) (text : String) : Prop :=
  (bytes.drop byteOffset).take text.length = text.toList.map Char.toNat

/-- The value handed to `setInt16` for a sample `s` (the two assignments to `sample`). -/
def sampleToInt16 (s : ℚ) : ℚ :=
  let sample := max (-1) (min 1 s)
  if sample < 0 then sample * 0x8000 else sample * 0x7FFF

/-- The two bytes `setInt16` stores for `value`. -/
def int16Bytes (value : ℚ) : Bytes :=
  [toUint16 value % 65536 % 256, toUint16 value % 65536 / 256 % 256]

/-- The four bytes of frame `i` of a two-channel buffer. -/
def frameBytes (abuffer : AudioBuffer) (i : Nat) : Bytes :=
  int16Bytes (sampleToInt16 (abuffer.getChannelData 0 i))
    ++ int16Bytes (sampleToInt16 (abuffer.getChannelData 1 i))

/-- The data chunk of the first `n` frames of a two-channel buffer. -/
def wavData (abuffer : AudioBuffer) : Nat → Bytes
  | 0 => []
  | n + 1 => wavData abuffer n ++ frameBytes abuffer n

/-- The 44 header bytes as the sequence of header writes leaves them. -/
def wavHeader (numOfChan sampleRate length : Nat) : Bytes :=
  let u32 (v : Nat) : Bytes :=
    [v % 4294967296 % 256, v % 4294967296 / 256 % 256, v % 4294967296 / 65536 % 256,
      v % 4294967296 / 16777216 % 256]
  let u16 (v : Nat) : Bytes := [v % 65536 % 256, v % 65536 / 256 % 256]
  [82, 73, 70, 70] ++ u32 (length - 8) ++ [87, 65, 86, 69] ++ [102, 109, 116, 32] ++ u32 16 ++ u16 1
    ++ u16 numOfChan ++ u32 sampleRate ++ u32 (sampleRate * 2 * numOfChan) ++ u16 (numOfChan * 2)
    ++ u16 16 ++ [100, 97, 116, 97] ++ u32 (length - 44)

/-! #### The sample conversion in the words of the specification -/

/-- Clamp a sample to the interval from -1 to 1. -/
def clampUnit (s : ℚ) : ℚ := if s < -1 then -1 else if 1 < s then 1 else s

/-- Truncation toward zero: round up below zero, down otherwise. -/
def truncTowardZero (x : ℚ) : Int := if x < 0 then ⌈x⌉ else ⌊x⌋

/-- Sample conversion as specified: clamp, scale negative values by 32768 and
the others by 32767, truncate toward zero. -/
def specSampleCode (s : ℚ) : Int :=
  if clampUnit s < 0 then truncTowardZero (clampUnit s * 32768)
  else truncTowardZero (clampUnit s * 32767)

/-- A two-channel buffer of silence at 48 kHz. -/
def silentBuffer : AudioBuffer := ⟨2, 48000, 3, fun _ _ => 0⟩

/-- A two-channel test buffer: channel 0 holds 3/2 then -3/2 (both clip), channel 1
holds 1/3 then -1/3. -/
def clipBuffer : AudioBuffer :=
  ⟨2, 44100, 2, fun c i => if c = 0 then (if i = 0 then 3 / 2 else -3 / 2)
    else (if i = 0 then 1 / 3 else -1 / 3)⟩

/-! ### Sequencer data (`instruments`, `sequence`, `pianoNotes`, `volumes`) -/

/-- The `type` strings of the instrument catalogue. -/
inductive SynthType where
  | kick
  | snare
  | hihat
  | synth
  deriving DecidableEq, Repr

/-- An entry of the `instruments` array. -/
structure Instrument where
  name : String
  baseFreq : Nat
  type : SynthType
  deriving DecidableEq, Repr

/-- The constant `instruments`. -/
def instruments : List Instrument :=
  [⟨"Kick", 150, .kick⟩, ⟨"Snare", 100, .snare⟩, ⟨"HiHat", 6000, .hihat⟩, ⟨"Synth", 440, .synth⟩]

/-- The constant `stepsCount`. -/
def stepsCount : Nat := 16

/-- The constant `notesCount`. -/
def notesCount : Nat := 12

/-- An element of `pianoNotes`: the object with fields `step`, `noteIndex`, `length`. -/
structure PianoNote where
  step : Nat
  noteIndex : Nat
  length : Nat
  deriving DecidableEq, Repr

/-- The mutable globals of `script.js` the sequencer core works on, together with
the part of the environment the transport uses.

* `bpm` is the numeric value of `bpmInput.value`.
* `sequence` is the array of rows; a missing row is a row that is `undefined`
  (reading a cell of it throws), a missing cell reads as `undefined`, which is falsy.
* `volumes` is the array of volumes; `none` is an array hole or an index past the end
  (`undefined`).
* `timers` lists the interval timers registered with `setInterval` and not yet
  cleared, each with its period in milliseconds; `nextTimer` is the next handle
  `setInterval` returns. -/
structure State where
  isPlaying : Bool
  currentStep : Nat
  intervalId : Option Nat
  bpm : ℚ
  sequence : List (List Bool)
  pianoNotes : List PianoNote
  volumes : List (Option ℚ)
  timers : List (Nat × ℚ)
  nextTimer : Nat

/-- The function `initSequence`: one row of `stepsCount` cells, all `false`, per instrument. -/
def initSequence : List (List Bool) :=
  (List.range instruments.length).map (fun _ => List.replicate stepsCount false)

/-- The function `initVolumes`: volume 0.7 for every instrument. -/
def initVolumes : List (Option ℚ) :=
  (List.range instruments.length).map (fun _ => some (7 / 10))

/-- The state after the top-level initialisation of the script: `isPlaying = false`,
`currentStep = 0`, `intervalId = null`, tempo 120 (the global `tempo`; the markup of
the tempo field is not among the sources), `initSequence()`, `initVolumes()`,
`pianoNotes = []`, no timer registered. -/
def initialState : State :=
  { isPlaying := false, currentStep := 0, intervalId := none, bpm := 120,
    sequence := initSequence, pianoNotes := [], volumes := initVolumes,
    timers := [], nextTimer := 0 }

/-- Array assignment `a[i] = v` on an array with holes: past the end the array grows and
the cells in between read as `undefined`. -/
def arrayAssign {β : Type} (hole : β) (a : List β) (i : Nat) (v : β) : List β :=
  if i < a.length then a.set i v else a ++ List.replicate (i - a.length) hole ++ [v]

/-- The click listener of a step cell: `sequence[i][j] = !sequence[i][j]`.  It throws,
leaving the state as it is, when row `i` is `undefined`. -/
def toggleStep (s : State) (i j : Nat) : State :=
  match s.sequence[i]? with
  | some row => { s with sequence := s.sequence.set i (arrayAssign false row j (!(row.getD j false))) }
  | none => s

/-- The input listener of a mixer slider: `volumes[idx] = parseFloat(e.target.value)`. -/
def mixerInput (s : State) (idx : Nat) (value : ℚ) : State :=
  { s with volumes := arrayAssign none s.volumes idx (some value) }

/-- The function `toggleNoteOnPianoRoll` on the note list: `findIndex`, then
`splice(index, 1)` or `push` of a note of length 1. -/
def toggleNote (pianoNotes : List PianoNote) (step noteIndex : Nat) : List PianoNote :=
  match pianoNotes.findIdx? (fun n => n.step = step ∧ n.noteIndex = noteIndex) with
  | some index => pianoNotes.eraseIdx index
  | none => pianoNotes ++ [⟨step, noteIndex, 1⟩]

/-- The function `toggleNoteOnPianoRoll(step, noteIndex)` (the redraw does not touch the state). -/
def toggleNoteOnPianoRoll (s : State) (step noteIndex : Nat) : State :=
  { s with pianoNotes := toggleNote s.pianoNotes step noteIndex }

/-- The pair a piano-roll note is identified by. -/
def PianoNote.key (n : PianoNote) : Nat × Nat := (n.step, n.noteIndex)

/-- Each `(step, noteIndex)` pair appears at most once in the note list. -/
def UniquePairs (pianoNotes : List PianoNote) : Prop := (pianoNotes.map PianoNote.key).Nodup

instance (pianoNotes : List PianoNote) : Decidable (UniquePairs pianoNotes) :=
  inferInstanceAs (Decidable (pianoNotes.map PianoNote.key).Nodup)

/-! ### Sound generators, live tick and offline export

A sound generator builds a self-terminating chain of audio nodes on a sink.  The
embedding records each call as a `Voice`: which generator ran (its recipe), on
which sink, with which start time, frequency and volume.  The type `α` is the
number type of frequencies; `semitoneRatio` stands for `Math.pow(2, 1/12)` and a
power with an integer exponent is the power of the field. -/

/-- The audio context a generator schedules on: `ctx` or the `OfflineAudioContext`. -/
inductive Sink where
  | live
  | offline
  deriving DecidableEq, Repr

/-- One call of a sound generator. -/
structure Voice (α : Type) where
  sink : Sink
  kind : SynthType
  time : ℚ
  freq : Option α
  vol : ℚ

/-- The function `playKick(time, vol)`. -/
def playKick {α : Type} (time vol : ℚ) : Voice α := ⟨.live, .kick, time, none, vol⟩

/-- The function `playSnare(time, vol)`. -/
def playSnare {α : Type} (time vol : ℚ) : Voice α := ⟨.live, .snare, time, none, vol⟩

/-- The function `playHiHat(time, vol)`. -/
def playHiHat {α : Type} (time vol : ℚ) : Voice α := ⟨.live, .hihat, time, none, vol⟩

/-- The function `playSynthNote(time, freq, vol)`. -/
def playSynthNote {α : Type} (time : ℚ) (freq : α) (vol : ℚ) : Voice α :=
  ⟨.live, .synth, time, some freq, vol⟩

/-- The function `playKickOffline(offlineCtx, time, vol)`. -/
def playKickOffline {α : Type} (time vol : ℚ) : Voice α := ⟨.offline, .kick, time, none, vol⟩

/-- The function `playSnareOffline(offlineCtx, time, vol)`. -/
def playSnareOffline {α : Type} (time vol : ℚ) : Voice α := ⟨.offline, .snare, time, none, vol⟩

/-- The function `playHiHatOffline(offlineCtx, time, vol)`. -/
def playHiHatOffline {α : Type} (time vol : ℚ) : Voice α := ⟨.offline, .hihat, time, none, vol⟩

/-- The function `playSynthNoteOffline(offlineCtx, time, freq, vol)`. -/
def playSynthNoteOffline {α : Type} (time : ℚ) (freq : α) (vol : ℚ) : Voice α :=
  ⟨.offline, .synth, time, some freq, vol⟩

/-- A generator called with the array read `volumes[i]`: an `undefined` volume makes the
first `setValueAtTime` throw, so no voice results. -/
def withVolume {α : Type} (generator : ℚ → Voice α) (vol : Option ℚ) : Option (List (Voice α)) :=
  match vol with
  | some v => some [generator v]
  | none => none

/-- The expression `freqBase * Math.pow(semitoneRatio, notesCount - note.noteIndex - 1)`. -/
def noteFreq {α : Type} [Field α] (semitoneRatio : α) (noteIndex : Nat) : α :=
  (261.63 : α) * semitoneRatio ^ ((notesCount : Int) - (noteIndex : Int) - 1)

/-- The body of the loop of `playStepSequencerStep` for instrument `i`: the voices it
triggers, or `none` when it throws. -/
def playStepSequencerInstrument {α : Type} (s : State) (time : ℚ) (step : Nat)
    (i : Nat) (instrument : Instrument) : Option (List (Voice α)) := do
  let row ← s.sequence[i]?
  if row.getD step false then
    let vol := s.volumes.getD i none
    match instrument.type with
    | .kick => withVolume (playKick time) vol
    | .snare => withVolume (playSnare time) vol
    | .hihat => withVolume (playHiHat time) vol
    | .synth => pure []
  else
    pure []

/-- The function `playStepSequencerStep(step)`, with `time = ctx.currentTime`. -/
def playStepSequencerStep {α : Type} (s : State) (time : ℚ) (step : Nat) :
    Option (List (Voice α)) :=
  instruments.enum.foldlM
    (fun out p => do
      let vs ← playStepSequencerInstrument s time step p.1 p.2
      pure (out ++ vs)) []

/-- The function `playPianoRollStep(step)`, with `time = ctx.currentTime`. -/
def playPianoRollStep {α : Type} [Field α] (semitoneRatio : α) (s : State) (time : ℚ)
    (step : Nat) : Option (List (Voice α)) :=
  s.pianoNotes.foldlM
    (fun out note =>
      if note.step = step then do
        let freq := noteFreq semitoneRatio note.noteIndex
        let vs ← withVolume (playSynthNote time freq) (s.volumes.getD 3 none)
        pure (out ++ vs)
      else pure out) []

/-- The function `playbackLoop`: the voices of the tick and the state after it, or
`none` when one of the two step functions throws (the step is then not advanced). -/
def playbackLoop {α : Type} [Field α] (semitoneRatio : α) (s : State) (time : ℚ) :
    Option (State × List (Voice α)) := do
  let drums ← playStepSequencerStep s time s.currentStep
  let notes ← playPianoRollStep semitoneRatio s time s.currentStep
  pure ({ s with currentStep := (s.currentStep + 1) % stepsCount }, drums ++ notes)

/-- The voices of one live tick at `step`: `playStepSequencerStep` followed by
`playPianoRollStep`. -/
def liveTick {α : Type} [Field α] (semitoneRatio : α) (s : State) (time : ℚ) (step : Nat) :
    Option (List (Voice α)) := do
  let drums ← playStepSequencerStep s time step
  let notes ← playPianoRollStep semitoneRatio s time step
  pure (drums ++ notes)

/-- The step-sequencer part of the body of the export loop, for instrument `i`. -/
def exportInstrument {α : Type} (s : State) (time : ℚ) (barStep : Nat)
    (i : Nat) (instrument : Instrument) : Option (List (Voice α)) := do
  let row ← s.sequence[i]?
  if row.getD (barStep % stepsCount) false then
    let vol := s.volumes.getD i none
    match instrument.type with
    | .kick => withVolume (playKickOffline time) vol
    | .snare => withVolume (playSnareOffline time) vol
    | .hihat => withVolume (playHiHatOffline time) vol
    | .synth => pure []
  else
    pure []

/-- The body of the loop `for (barStep ...)` of `exportWAV`. -/
def exportStep {α : Type} [Field α] (semitoneRatio : α) (s : State) (barStep : Nat) :
    Option (List (Voice α)) := do
  let stepDuration := (60 / s.bpm) / 4
  let time := barStep * stepDuration
  let drums ← instruments.enum.foldlM
    (fun out p => do
      let vs ← exportInstrument s time barStep p.1 p.2
      pure (out ++ vs)) []
  let notes ← s.pianoNotes.foldlM
    (fun out note =>
      if note.step = barStep % stepsCount then do
        let freq := noteFreq semitoneRatio note.noteIndex
        let vs ← withVolume (playSynthNoteOffline time freq) (s.volumes.getD 3 none)
        pure (out ++ vs)
      else pure out) []
  pure (drums ++ notes)

/-- The function `startPlayback`. -/
def startPlayback (s : State) : State :=
  if s.isPlaying then s
  else
    let intervalMs := (60 / s.bpm) * 1000 / 4
    { s with isPlaying := true, currentStep := 0, intervalId := some s.nextTimer,
             timers := (s.nextTimer, intervalMs) :: s.timers, nextTimer := s.nextTimer + 1 }

/-- The platform function `clearInterval(id)`. -/
def clearInterval (timers : List (Nat × ℚ)) (id : Option Nat) : List (Nat × ℚ) :=
  timers.filter (fun t => some t.1 ≠ id)

/-- The function `stopPlayback`. -/
def stopPlayback (s : State) : State :=
  if !s.isPlaying then s
  else { s with isPlaying := false, currentStep := 0, timers := clearInterval s.timers s.intervalId }

/-- A timer with handle `id` comes due: `playbackLoop` runs if the timer is still
registered; a tick that throws leaves the state as it is.  Only the state after the
tick is kept here, and it does not depend on the frequencies, so the semitone ratio
is set to 1. -/
def timerDue (s : State) (id : Nat) (time : ℚ) : State :=
  if id ∈ s.timers.map Prod.fst then
    match playbackLoop (1 : ℚ) s time with
    | some r => r.1
    | none => s
  else s

/-! ### Project load (`loadProject`) -/

/-- The `bpm` field of a project file, with its numeric value: a JSON number, or a
non-empty numeric string, which is what `saveProject` writes (`bpmInput.value`).  A
number is falsy when it is 0; a non-empty string is always truthy. -/
inductive BpmField where
  | number (value : ℚ)
  | text (value : ℚ)

/-- The result of `JSON.parse` on a project file whose fields, where present, have the
types of the data model.  A field is `none` when the object lacks it or holds a
value that fails the guard of `loadProject` (not an array). -/
structure Project where
  bpm : Option BpmField
  sequence : Option (List (List Bool))
  pianoNotes : Option (List PianoNote)
  volumes : Option (List ℚ)

/-- The parsed text of the empty object. -/
def emptyProject : Project := ⟨none, none, none, none⟩

/-- The function `loadProject(json)` on the result of `JSON.parse(json)`; `none` is a
parse that throws or yields `null`: the `catch` block reports it and the state is
untouched.  The first assignment is `bpmInput.value = project.bpm || 120`.  The
three redraw calls do not change the state, and an exception in one of them is
caught after the assignments. -/
def loadProject (parsed : Option Project) (s : State) : State :=
  match parsed with
  | none => s
  | some project =>
    let s := { s with bpm := match project.bpm with
                             | some (.number b) => if b = 0 then 120 else b
                             | some (.text b) => b
                             | none => 120 }
    let s := match project.sequence with
             | some q => { s with sequence := q }
             | none => s
    let s := match project.pianoNotes with
             | some ns => { s with pianoNotes := ns }
             | none => s
    match project.volumes with
    | some vs => { s with volumes := vs.map some }
    | none => s

/-! ### Example states and project files -/

/-- The initial state after three edits: step cell (0, 0) switched on, the piano-roll
note (3, 5) added, the snare volume moved to 0.2. -/
def editedState : State :=
  mixerInput (toggleNoteOnPianoRoll (toggleStep initialState 0 0) 3 5) 1 (1 / 5)

/-- A project file whose note list holds the pair (0, 0) twice. -/
def duplicateProject : Project :=
  ⟨none, none, some [⟨0, 0, 1⟩, ⟨0, 0, 1⟩], none⟩

/-- A project file with one note and nothing else. -/
def oneNoteProject : Project :=
  ⟨none, none, some [⟨2, 7, 1⟩], none⟩

/-! ### Specification-side descriptions of a tick -/

/-- The step-grid cell `(i, step)` read for truthiness. -/
def cell (s : State) (i step : Nat) : Bool := (s.sequence.getD i []).getD step false

/-- The volume slot `i` as a number (0 where the slot is `undefined`). -/
def volumeAt (s : State) (i : Nat) : ℚ := (s.volumes.getD i none).getD 0

/-- The state has a grid row and a volume for each instrument, as the data model
requires: no array read of a tick yields `undefined`. -/
def HasRowsAndVolumes (s : State) : Prop :=
  instruments.length ≤ s.sequence.length ∧
    ∀ i, i < instruments.length → (s.volumes.getD i none).isSome = true

/-- The step-sequencer voices of a tick as the specification words them: one voice
for every instrument whose cell at this step is true, of the kind of that
instrument, at the volume of that instrument. -/
def claimedDrumVoices {α : Type} (s : State) (time : ℚ) (step : Nat) : List (Voice α) :=
  (instruments.enum.filter (fun p => cell s p.1 step)).map
    (fun p => ⟨.live, p.2.type, time, none, volumeAt s p.1⟩)

/-- The step-sequencer voices of a tick as the code triggers them: as claimed, for the
three percussion instruments only. -/
def triggeredDrumVoices {α : Type} (s : State) (time : ℚ) (step : Nat) : List (Voice α) :=
  (instruments.enum.filter (fun p => cell s p.1 step && decide (p.2.type ≠ .synth))).map
    (fun p => ⟨.live, p.2.type, time, none, volumeAt s p.1⟩)

/-- The piano-roll voices of a tick: one synth voice at volume slot 3 for every note
whose `step` field is this step. -/
def noteVoices {α : Type} [Field α] (semitoneRatio : α) (s : State) (time : ℚ) (step : Nat) :
    List (Voice α) :=
  (s.pianoNotes.filter (fun n => n.step = step)).map
    (fun n => ⟨.live, .synth, time, some (noteFreq semitoneRatio n.noteIndex), volumeAt s 3⟩)

/-! ### Reachable states -/

/-- The change listener of the tempo field, after the user has set the field to `b`:
a running transport is stopped and started again. -/
def bpmChange (s : State) (b : ℚ) : State :=
  let s := { s with bpm := b }
  if s.isPlaying then startPlayback (stopPlayback s) else s

/-- The states the page can be in: the initial state followed by any sequence of grid
and piano-roll toggles, mixer changes (a slider delivers a value between 0 and 1),
tempo changes, loads of project files satisfying `okFile`, transport commands and
timer ticks. -/
inductive ReachableVia (okFile : Project → Prop) : State → Prop where
  | init : ReachableVia okFile initialState
  | toggleStep (s : State) (i j : Nat) :
      ReachableVia okFile s → ReachableVia okFile (toggleStep s i j)
  | toggleNote (s : State) (step noteIndex : Nat) :
      ReachableVia okFile s → ReachableVia okFile (toggleNoteOnPianoRoll s step noteIndex)
  | mixer (s : State) (idx : Nat) (value : ℚ) :
      ReachableVia okFile s → 0 ≤ value → value ≤ 1 →
      ReachableVia okFile (mixerInput s idx value)
  | tempo (s : State) (b : ℚ) : ReachableVia okFile s → ReachableVia okFile (bpmChange s b)
  | load (s : State) (parsed : Option Project) :
      ReachableVia okFile s → (∀ p, parsed = some p → okFile p) →
      ReachableVia okFile (loadProject parsed s)
  | start (s : State) : ReachableVia okFile s → ReachableVia okFile (startPlayback s)
  | stop (s : State) : ReachableVia okFile s → ReachableVia okFile (stopPlayback s)
  | tick (s : State) (id : Nat) (time : ℚ) :
      ReachableVia okFile s → ReachableVia okFile (timerDue s id time)

/-- Every stored volume lies between 0 and 1. -/
def VolumesInUnit (s : State) : Prop :=
  ∀ q, some q ∈ s.volumes → 0 ≤ q ∧ q ≤ 1

/-- A project file whose volumes, if present, lie between 0 and 1. -/
def FileVolumesInUnit (p : Project) : Prop :=
  ∀ vs, p.volumes = some vs → ∀ q ∈ vs, 0 ≤ q ∧ q ≤ 1

/-- The initial state after the piano-roll notes (1, 1) and (2, 2) have been added. -/
def twoNoteState : State :=
  toggleNoteOnPianoRoll (toggleNoteOnPianoRoll initialState 1 1) 2 2

/-- The initial state with the step cell of instrument 3 (the synth) at step 0 switched on. -/
def synthCellState : State := toggleStep initialState 3 0

/-- The initial state with the step cell of instrument 0 (the kick) at step 0 switched on. -/
def kickOnlyState : State := toggleStep initialState 0 0

/-- A percussion voice on `sink` at `time`, at one of the stored volumes. -/
def DrumVoiceOf {α : Type} (s : State) (sink : Sink) (time : ℚ) (v : Voice α) : Prop :=
  v.sink = sink ∧ v.time = time ∧ v.freq = none ∧ v.kind ≠ SynthType.synth ∧
    some v.vol ∈ s.volumes

/-- A synth voice on `sink` at `time` for a piano-roll note of step `step`, at one of
the stored volumes and at the frequency of the note. -/
def NoteVoiceOf {α : Type} [Field α] (semitoneRatio : α) (s : State) (sink : Sink) (time : ℚ)
    (step : Nat) (v : Voice α) : Prop :=
  v.sink = sink ∧ v.time = time ∧ v.kind = SynthType.synth ∧ some v.vol ∈ s.volumes ∧
    ∃ n ∈ s.pianoNotes, n.step = step ∧ v.freq = some (noteFreq semitoneRatio n.noteIndex)

/-- After the thirteen header writes the view is the header followed by the
still-zero data area, and the data loop starts at offset 44. -/
theorem bufferToWave_unfold (abuffer : AudioBuffer) (len : Nat) :
    bufferToWave abuffer len =
      ((List.range len).foldlM (writeFrame abuffer abuffer.numberOfChannels)
        (wavHeader abuffer.numberOfChannels abuffer.sampleRate
            (len * abuffer.numberOfChannels * 2 + 44)
          ++ List.replicate (len * abuffer.numberOfChannels * 2) 0, 44)).map Prod.fst := by
  have hz : List.replicate (len * abuffer.numberOfChannels * 2 + 44) (0 : Nat)
      = List.replicate 44 0 ++ List.replicate (len * abuffer.numberOfChannels * 2) 0 := by
    rw [Nat.add_comm, List.replicate_add]
  unfold bufferToWave
  dsimp only
  rw [hz]
  simp [writeRiffDescriptor, writeFmtSubchunk, writeDataSubchunk, writeString, writeStringFrom,
    setUint8, setUint16, setUint32, wavHeader, List.replicate]
  generalize @List.foldlM Option _ _ _ _ _ _ = r
  cases r <;> rfl

theorem wavData_length (abuffer : AudioBuffer) (n : Nat) :
    (wavData abuffer n).length = 4 * n := by
  induction n with
  | zero => rfl
  | succ n ih => simp [wavData, frameBytes, int16Bytes, ih]; omega

theorem set_after (pre : Bytes) (a v : Nat) (rest : Bytes) (pos : Nat) (h : pos = pre.length) :
    (pre ++ a :: rest).set pos v = pre ++ v :: rest := by
  subst h; simp

theorem setInt16_append (pre rest : Bytes) (a b pos : Nat) (value : ℚ) (h : pos = pre.length) :
    setInt16 (pre ++ a :: b :: rest) pos value = some (pre ++ int16Bytes value ++ rest) := by
  subst h
  have h1 : (pre ++ toUint16 value % 65536 % 256 :: b :: rest)
      = (pre ++ [toUint16 value % 65536 % 256]) ++ b :: rest := by simp
  simp only [setInt16, setUint16, int16Bytes]
  rw [if_pos (by simp)]
  rw [set_after pre a _ _ _ rfl, h1, set_after _ b _ _ _ (by simp)]
  simp

theorem writeSample_append (abuffer : AudioBuffer) (pre rest : Bytes) (a b pos i channel : Nat)
    (h : pos = pre.length) :
    writeSample abuffer i (pre ++ a :: b :: rest, pos) channel
      = some (pre ++ int16Bytes (sampleToInt16 (abuffer.getChannelData channel i)) ++ rest,
          pos + 2) := by
  simp only [writeSample]
  rw [setInt16_append pre rest a b pos _ h]
  rfl

theorem writeFrame_two (abuffer : AudioBuffer) (pre rest : Bytes) (a b c d pos i : Nat)
    (h : pos = pre.length) :
    writeFrame abuffer 2 (pre ++ a :: b :: c :: d :: rest, pos) i
      = some (pre ++ frameBytes abuffer i ++ rest, pos + 4) := by
  have hr : List.range 2 = [0, 1] := rfl
  simp only [writeFrame, hr, List.foldlM]
  rw [writeSample_append abuffer pre _ a b pos i 0 h]
  simp only [Option.some_bind, Option.bind_eq_bind]
  rw [writeSample_append abuffer _ rest c d (pos + 2) i 1 (by simp [int16Bytes, h])]
  simp [frameBytes]

theorem writeData_two (abuffer : AudioBuffer) (pre : Bytes) (len : Nat) :
    ∀ rest : Bytes, (List.range len).foldlM (writeFrame abuffer 2)
      (pre ++ List.replicate (4 * len) 0 ++ rest, pre.length)
      = some (pre ++ wavData abuffer len ++ rest, pre.length + 4 * len) := by
  induction len with
  | zero => intro rest; simp [wavData]
  | succ n ih =>
    intro rest
    have hrep : List.replicate (4 * (n + 1)) (0 : Nat) ++ rest
        = List.replicate (4 * n) 0 ++ (0 :: 0 :: 0 :: 0 :: rest) := by
      rw [show 4 * (n + 1) = 4 * n + 4 by ring, List.replicate_add]
      simp [List.replicate]
    rw [List.range_succ, List.foldlM_append, List.append_assoc, hrep, ← List.append_assoc, ih]
    simp only [List.foldlM, Option.some_bind, Option.bind_eq_bind, bind_pure]
    rw [List.append_assoc, ← List.append_assoc pre,
      writeFrame_two abuffer _ rest 0 0 0 0 _ n (by simp [wavData_length])]
    simp [wavData]; omega

theorem wavHeader_length (numOfChan sampleRate length : Nat) :
    (wavHeader numOfChan sampleRate length).length = 44 := by
  simp [wavHeader]

/-- Closed form of the encoder on a two-channel buffer: it always returns, and
the file is the header followed by the interleaved sample bytes. -/
theorem bufferToWave_stereo (abuffer : AudioBuffer) (len : Nat)
    (h2 : abuffer.numberOfChannels = 2) :
    bufferToWave abuffer len
      = some (wavHeader 2 abuffer.sampleRate (len * 2 * 2 + 44) ++ wavData abuffer len) := by
  rw [bufferToWave_unfold, h2]
  have hlen : len * 2 * 2 = 4 * len := by ring
  have h44 := wavHeader_length 2 abuffer.sampleRate (len * 2 * 2 + 44)
  have := writeData_two abuffer (wavHeader 2 abuffer.sampleRate (len * 2 * 2 + 44)) len []
  rw [h44] at this
  simp only [List.append_nil] at this
  rw [hlen] at this ⊢
  rw [this]
  rfl

theorem wavData_zero (abuffer : AudioBuffer) (h : ∀ c i, abuffer.getChannelData c i = 0)
    (n : Nat) : wavData abuffer n = List.replicate (4 * n) 0 := by
  induction n with
  | zero => rfl
  | succ n ih =>
    have hb : int16Bytes (sampleToInt16 0) = [0, 0] := by
      simp [int16Bytes, sampleToInt16, toUint16, truncate]
    rw [wavData, ih, frameBytes, h, h, hb, show 4 * (n + 1) = 4 * n + 4 by ring,
      List.replicate_add]
    rfl

/-- Claim C1: on a two-channel buffer of `N` frames `bufferToWave` returns a byte
sequence of exactly `44 + 4 * N` bytes; when every sample is zero, every byte from
offset 44 to the end is zero and the 32-bit little-endian SampleRate field at
offset 24 equals the sample rate (a rate that fits the 32-bit field). -/
theorem bufferToWave_silence (abuffer : AudioBuffer) (N : Nat)
    (h2 : abuffer.numberOfChannels = 2) (hR : abuffer.sampleRate < 4294967296) :
    ∃ bytes, bufferToWave abuffer N = some bytes ∧ bytes.length = 44 + 4 * N ∧
      ((∀ c i, abuffer.getChannelData c i = 0) →
        (∀ k, 44 ≤ k → k < bytes.length → bytes[k]? = some 0) ∧
        getUint32 bytes 24 = abuffer.sampleRate) := by
  refine ⟨_, bufferToWave_stereo abuffer N h2, ?_, ?_⟩
  · simp [wavHeader, wavData_length]; omega
  · intro hz
    rw [wavData_zero abuffer hz]
    constructor
    · intro k hk hlt
      have h44 := wavHeader_length 2 abuffer.sampleRate (N * 2 * 2 + 44)
      simp only [List.length_append, h44, List.length_replicate] at hlt
      rw [List.getElem?_append_right (by omega)]
      simp only [h44, List.getElem?_replicate]
      rw [if_pos (by omega)]
    · simp [getUint32, wavHeader]
      omega

theorem bufferToWave_silence_witness :
    ∃ bytes, bufferToWave silentBuffer 3 = some bytes ∧ bytes.length = 44 + 4 * 3 ∧
      ((∀ c i, silentBuffer.getChannelData c i = 0) →
        (∀ k, 44 ≤ k → k < bytes.length → bytes[k]? = some 0) ∧
        getUint32 bytes 24 = silentBuffer.sampleRate) :=
  bufferToWave_silence silentBuffer 3 rfl (by decide)

/-- Claim C2: for a two-channel buffer of `N` frames at sample rate `R` the first
44 bytes are the canonical RIFF/WAVE PCM header, every multi-byte field
little-endian: the tags RIFF, WAVE, fmt and data at 0, 8, 12 and 36,
ChunkSize `totalBytes - 8`, Subchunk1Size 16, AudioFormat 1, NumChannels 2,
SampleRate `R`, ByteRate `R * 2 * 2`, BlockAlign 4, BitsPerSample 16 and
Subchunk2Size `totalBytes - 44`, with `totalBytes = 44 + 4 * N` (sizes and rates
that fit their 32-bit fields). -/
theorem bufferToWave_header (abuffer : AudioBuffer) (N : Nat)
    (h2 : abuffer.numberOfChannels = 2) (hN : 44 + 4 * N - 8 < 4294967296)
    (hR : abuffer.sampleRate * 2 * 2 < 4294967296) :
    ∃ bytes, bufferToWave abuffer N = some bytes ∧
      asciiAt bytes 0 "RIFF" ∧
      getUint32 bytes 4 = (44 + 4 * N) - 8 ∧
      asciiAt bytes 8 "WAVE" ∧
      asciiAt bytes 12 "fmt " ∧
      getUint32 bytes 16 = 16 ∧
      getUint16 bytes 20 = 1 ∧
      getUint16 bytes 22 = 2 ∧
      getUint32 bytes 24 = abuffer.sampleRate ∧
      getUint32 bytes 28 = abuffer.sampleRate * 2 * 2 ∧
      getUint16 bytes 32 = 4 ∧
      getUint16 bytes 34 = 16 ∧
      asciiAt bytes 36 "data" ∧
      getUint32 bytes 40 = (44 + 4 * N) - 44 := by
  refine ⟨_, bufferToWave_stereo abuffer N h2, ?_⟩
  simp only [wavHeader, List.cons_append, List.nil_append, List.append_assoc]
  simp only [asciiAt, getUint32, getUint16]
  refine ⟨rfl, ?_, rfl, rfl, rfl, rfl, rfl, ?_, ?_, rfl, rfl, rfl, ?_⟩ <;>
    simp only [List.getD_cons_succ, List.getD_cons_zero] <;> omega

theorem bufferToWave_header_witness :
    ∃ bytes, bufferToWave clipBuffer 2 = some bytes ∧
      asciiAt bytes 0 "RIFF" ∧
      getUint32 bytes 4 = (44 + 4 * 2) - 8 ∧
      asciiAt bytes 8 "WAVE" ∧
      asciiAt bytes 12 "fmt " ∧
      getUint32 bytes 16 = 16 ∧
      getUint16 bytes 20 = 1 ∧
      getUint16 bytes 22 = 2 ∧
      getUint32 bytes 24 = clipBuffer.sampleRate ∧
      getUint32 bytes 28 = clipBuffer.sampleRate * 2 * 2 ∧
      getUint16 bytes 32 = 4 ∧
      getUint16 bytes 34 = 16 ∧
      asciiAt bytes 36 "data" ∧
      getUint32 bytes 40 = (44 + 4 * 2) - 44 :=
  bufferToWave_header clipBuffer 2 rfl (by decide) (by decide)

theorem truncate_eq_truncTowardZero (x : ℚ) : truncate x = truncTowardZero x := by
  unfold truncate truncTowardZero
  have hden : (0 : Int) ≤ (x.den : Int) := Int.natCast_nonneg _
  split_ifs with h
  · have hnum : 0 ≤ -x.num := by
      have := Rat.num_neg.mpr h
      omega
    have h1 : ⌈x⌉ = -⌊-x⌋ := by rw [Int.floor_neg, neg_neg]
    have h2 : ⌊-x⌋ = (-x).num / ((-x).den : Int) := Rat.floor_def' (-x)
    rw [h1, h2, Rat.neg_num, Rat.neg_den, ← Int.tdiv_eq_ediv hnum hden, Int.neg_tdiv, neg_neg]
  · have hnum : 0 ≤ x.num := Rat.num_nonneg.mpr (not_lt.mp h)
    have h2 : ⌊x⌋ = x.num / (x.den : Int) := Rat.floor_def' x
    rw [h2, Int.tdiv_eq_ediv hnum hden]

theorem clamp_eq_clampUnit (s : ℚ) : max (-1) (min 1 s) = clampUnit s := by
  unfold clampUnit
  split_ifs with h1 h2
  · rw [min_eq_right (by linarith), max_eq_left (by linarith)]
  · rw [min_eq_left (by linarith), max_eq_right (by linarith)]
  · rw [min_eq_right (by linarith), max_eq_right (by linarith)]

theorem clampUnit_bounds (s : ℚ) : -1 ≤ clampUnit s ∧ clampUnit s ≤ 1 := by
  unfold clampUnit
  split_ifs with h1 h2 <;> constructor <;> linarith

/-- The value the code hands to `setInt16`, truncated, is the specified sample code. -/
theorem truncate_sampleToInt16 (s : ℚ) : truncate (sampleToInt16 s) = specSampleCode s := by
  unfold sampleToInt16 specSampleCode
  simp only [clamp_eq_clampUnit]
  split_ifs <;> rw [truncate_eq_truncTowardZero]

theorem specSampleCode_bounds (s : ℚ) : -32768 ≤ specSampleCode s ∧ specSampleCode s ≤ 32767 := by
  obtain ⟨hlo, hhi⟩ := clampUnit_bounds s
  unfold specSampleCode truncTowardZero
  split_ifs with h1 h2 h3
  · constructor
    · exact Int.le_ceil_iff.mpr (by push_cast; linarith)
    · exact Int.ceil_le.mpr (by push_cast; linarith)
  · exfalso; linarith
  · exfalso; linarith
  · constructor
    · exact Int.le_floor.mpr (by push_cast; linarith)
    · exact Int.floor_le_iff.mpr (by push_cast; linarith)

theorem wavData_getElem? (abuffer : AudioBuffer) (N i j : Nat) (hi : i < N) (hj : j < 4) :
    (wavData abuffer N)[4 * i + j]? = (frameBytes abuffer i)[j]? := by
  induction N with
  | zero => omega
  | succ n ih =>
    rw [wavData]
    by_cases h : i < n
    · rw [List.getElem?_append_left (by rw [wavData_length]; omega)]
      exact ih h
    · have hin : i = n := by omega
      subst hin
      rw [List.getElem?_append_right (by rw [wavData_length]; omega), wavData_length]
      congr 1
      omega

/-- The two's complement little-endian bytes of an in-range value read back as that value. -/
theorem int16_roundtrip (v : Int) (hlo : -32768 ≤ v) (hhi : v ≤ 32767) :
    (if (v % 65536).toNat % 65536 % 256 + 256 * ((v % 65536).toNat % 65536 / 256 % 256) < 32768
      then (((v % 65536).toNat % 65536 % 256
        + 256 * ((v % 65536).toNat % 65536 / 256 % 256) : Nat) : Int)
      else (((v % 65536).toNat % 65536 % 256
        + 256 * ((v % 65536).toNat % 65536 / 256 % 256) : Nat) : Int) - 65536) = v := by
  split_ifs <;> omega

/-- Reading the signed 16-bit field of frame `i`, channel `c` of the encoded file. -/
theorem getInt16_sample (abuffer : AudioBuffer) (N i c : Nat) (hi : i < N) (hc : c < 2) :
    getInt16 (wavHeader 2 abuffer.sampleRate (N * 2 * 2 + 44) ++ wavData abuffer N)
        (44 + 4 * i + 2 * c)
      = specSampleCode (abuffer.getChannelData c i) := by
  have h44 := wavHeader_length 2 abuffer.sampleRate (N * 2 * 2 + 44)
  have hget : ∀ j, j < 4 →
      (wavHeader 2 abuffer.sampleRate (N * 2 * 2 + 44) ++ wavData abuffer N).getD
        (44 + 4 * i + j) 0 = (frameBytes abuffer i).getD j 0 := by
    intro j hj
    rw [List.getD_eq_getElem?_getD, List.getD_eq_getElem?_getD,
      List.getElem?_append_right (by omega), h44,
      show 44 + 4 * i + j - 44 = 4 * i + j by omega, wavData_getElem? abuffer N i j hi hj]
  obtain ⟨hlo, hhi⟩ := specSampleCode_bounds (abuffer.getChannelData c i)
  have hcases : c = 0 ∨ c = 1 := by omega
  rcases hcases with rfl | rfl
  · have e0 := hget 0 (by omega)
    have e1 := hget 1 (by omega)
    simp only [Nat.add_zero, Nat.mul_zero] at e0 e1 ⊢
    simp only [getInt16, getUint16, e0, e1, frameBytes, int16Bytes, toUint16,
      truncate_sampleToInt16, List.cons_append, List.nil_append, List.getD_cons_zero,
      List.getD_cons_succ]
    exact int16_roundtrip _ hlo hhi
  · have e2 := hget 2 (by omega)
    have e3 := hget 3 (by omega)
    rw [show 44 + 4 * i + 2 * 1 = 44 + 4 * i + 2 by omega]
    rw [show 44 + 4 * i + 3 = 44 + 4 * i + 2 + 1 by omega] at e3
    simp only [getInt16, getUint16, e2, e3, frameBytes, int16Bytes, toUint16,
      truncate_sampleToInt16, List.cons_append, List.nil_append, List.getD_cons_zero,
      List.getD_cons_succ]
    exact int16_roundtrip _ hlo hhi

theorem specSampleCode_clip_high : specSampleCode (3 / 2) = 32767 := by
  have h : clampUnit (3 / 2) = 1 := by unfold clampUnit; norm_num
  unfold specSampleCode truncTowardZero
  rw [h]
  norm_num

theorem specSampleCode_clip_low : specSampleCode (-3 / 2) = -32768 := by
  have h : clampUnit (-3 / 2) = -1 := by unfold clampUnit; norm_num
  unfold specSampleCode truncTowardZero
  rw [h]
  norm_num
  rw [show (-32768 : ℚ) = ((-32768 : Int) : ℚ) by norm_num, Int.ceil_intCast]

/-- Claim C3: for a two-channel buffer, every frame `i < N` and channel `c < 2`,
the little-endian signed 16-bit integer written at byte offset `44 + 4 * i + 2 * c`
is the specified conversion of sample `(c, i)` (clamp to the unit interval, scale
negative values by 32768 and the others by 32767, truncate toward zero); every
written value lies between -32768 and 32767; a sample of 1.5 encodes to 32767
and a sample of -1.5 encodes to -32768. -/
theorem bufferToWave_samples (abuffer : AudioBuffer) (N i c : Nat)
    (h2 : abuffer.numberOfChannels = 2) (hi : i < N) (hc : c < 2) :
    ∃ bytes, bufferToWave abuffer N = some bytes ∧
      getInt16 bytes (44 + 4 * i + 2 * c) = specSampleCode (abuffer.getChannelData c i) ∧
      -32768 ≤ getInt16 bytes (44 + 4 * i + 2 * c) ∧
      getInt16 bytes (44 + 4 * i + 2 * c) ≤ 32767 ∧
      (abuffer.getChannelData c i = 3 / 2 → getInt16 bytes (44 + 4 * i + 2 * c) = 32767) ∧
      (abuffer.getChannelData c i = -3 / 2 → getInt16 bytes (44 + 4 * i + 2 * c) = -32768) := by
  refine ⟨_, bufferToWave_stereo abuffer N h2, getInt16_sample abuffer N i c hi hc, ?_, ?_, ?_, ?_⟩
  · rw [getInt16_sample abuffer N i c hi hc]; exact (specSampleCode_bounds _).1
  · rw [getInt16_sample abuffer N i c hi hc]; exact (specSampleCode_bounds _).2
  · intro h; rw [getInt16_sample abuffer N i c hi hc, h]; exact specSampleCode_clip_high
  · intro h; rw [getInt16_sample abuffer N i c hi hc, h]; exact specSampleCode_clip_low

theorem bufferToWave_samples_witness :
    ∃ bytes, bufferToWave clipBuffer 2 = some bytes ∧
      getInt16 bytes (44 + 4 * 0 + 2 * 0) = specSampleCode (clipBuffer.getChannelData 0 0) ∧
      -32768 ≤ getInt16 bytes (44 + 4 * 0 + 2 * 0) ∧
      getInt16 bytes (44 + 4 * 0 + 2 * 0) ≤ 32767 ∧
      (clipBuffer.getChannelData 0 0 = 3 / 2 → getInt16 bytes (44 + 4 * 0 + 2 * 0) = 32767) ∧
      (clipBuffer.getChannelData 0 0 = -3 / 2 → getInt16 bytes (44 + 4 * 0 + 2 * 0) = -32768) :=
  bufferToWave_samples clipBuffer 2 0 0 rfl (by decide) (by decide)

/-! ### Piano roll -/

/-- The toggle, one list cell at a time: the first note equal to the pair is removed,
and when there is none the new note goes to the end. -/
theorem toggleNote_cons (n : PianoNote) (l : List PianoNote) (step noteIndex : Nat) :
    toggleNote (n :: l) step noteIndex
      = if n.step = step ∧ n.noteIndex = noteIndex then l
        else n :: toggleNote l step noteIndex := by
  unfold toggleNote
  by_cases h : n.step = step ∧ n.noteIndex = noteIndex
  · simp [List.findIdx?_cons, h]
  · rw [if_neg h]
    simp only [List.findIdx?_cons, h, decide_False, Bool.false_eq_true, if_false, zero_add,
      List.findIdx?_start_succ]
    cases List.findIdx? (fun n => decide (n.step = step ∧ n.noteIndex = noteIndex)) l with
    | none => simp
    | some i => simp

theorem toggleNote_nil (step noteIndex : Nat) :
    toggleNote [] step noteIndex = [⟨step, noteIndex, 1⟩] := rfl

theorem toggleNote_absent (l : List PianoNote) (step noteIndex : Nat)
    (h : (step, noteIndex) ∉ l.map PianoNote.key) :
    toggleNote l step noteIndex = l ++ [⟨step, noteIndex, 1⟩] := by
  induction l with
  | nil => rfl
  | cons n l ih =>
    simp only [List.map_cons, List.mem_cons, not_or] at h
    have hn : ¬ (n.step = step ∧ n.noteIndex = noteIndex) := by
      intro hh
      apply h.1
      simp [PianoNote.key, hh.1, hh.2]
    rw [toggleNote_cons, if_neg hn, ih h.2]
    rfl

theorem toggleNote_append_new (l : List PianoNote) (step noteIndex : Nat)
    (h : (step, noteIndex) ∉ l.map PianoNote.key) :
    toggleNote (l ++ [⟨step, noteIndex, 1⟩]) step noteIndex = l := by
  induction l with
  | nil => simp [toggleNote_cons, toggleNote_nil]
  | cons n l ih =>
    simp only [List.map_cons, List.mem_cons, not_or] at h
    have hn : ¬ (n.step = step ∧ n.noteIndex = noteIndex) := by
      intro hh
      apply h.1
      simp [PianoNote.key, hh.1, hh.2]
    rw [List.cons_append, toggleNote_cons, if_neg hn, ih h.2]

theorem mem_keys_toggleNote (l : List PianoNote) (step noteIndex : Nat) (k : Nat × Nat)
    (hk : k ∈ (toggleNote l step noteIndex).map PianoNote.key) :
    k ∈ l.map PianoNote.key ∨ k = (step, noteIndex) := by
  induction l with
  | nil =>
    rw [toggleNote_nil] at hk
    right
    simpa [PianoNote.key] using hk
  | cons n l ih =>
    rw [toggleNote_cons] at hk
    split_ifs at hk with h
    · left; exact List.mem_cons_of_mem _ hk
    · simp only [List.map_cons, List.mem_cons] at hk ⊢
      rcases hk with hk | hk
      · left; left; exact hk
      · rcases ih hk with h1 | h1
        · left; right; exact h1
        · right; exact h1

/-- The toggle keeps the pairs of the note list distinct. -/
theorem uniquePairs_toggleNote (l : List PianoNote) (step noteIndex : Nat)
    (hu : UniquePairs l) : UniquePairs (toggleNote l step noteIndex) := by
  unfold UniquePairs at hu ⊢
  induction l with
  | nil => simp [toggleNote_nil]
  | cons n l ih =>
    rw [List.map_cons, List.nodup_cons] at hu
    rw [toggleNote_cons]
    split_ifs with h
    · exact hu.2
    · rw [List.map_cons, List.nodup_cons]
      refine ⟨?_, ih hu.2⟩
      intro hmem
      rcases mem_keys_toggleNote l step noteIndex _ hmem with h1 | h1
      · exact hu.1 h1
      · apply h
        simp only [PianoNote.key, Prod.mk.injEq] at h1
        exact h1

/-- Two toggles at the same pair, on a list with distinct pairs. -/
theorem toggleNote_twice (l : List PianoNote) (step noteIndex : Nat) (hu : UniquePairs l) :
    (∀ k, k ∈ (toggleNote (toggleNote l step noteIndex) step noteIndex).map PianoNote.key
        ↔ k ∈ l.map PianoNote.key) ∧
    ((∀ n ∈ l, n.length = 1) →
      (toggleNote (toggleNote l step noteIndex) step noteIndex).Perm l) := by
  unfold UniquePairs at hu
  induction l with
  | nil =>
    have h0 : toggleNote (toggleNote [] step noteIndex) step noteIndex = [] := by
      rw [toggleNote_nil, toggleNote_cons]; simp
    rw [h0]
    exact ⟨fun _ => Iff.rfl, fun _ => List.Perm.refl _⟩
  | cons n l ih =>
    rw [List.map_cons, List.nodup_cons] at hu
    rw [toggleNote_cons]
    split_ifs with h
    · have hkey : n.key = (step, noteIndex) := by simp [PianoNote.key, h.1, h.2]
      have habs : (step, noteIndex) ∉ l.map PianoNote.key := hkey ▸ hu.1
      rw [toggleNote_absent l step noteIndex habs]
      constructor
      · intro k
        have hnew : PianoNote.key ⟨step, noteIndex, 1⟩ = (step, noteIndex) := rfl
        simp only [List.map_append, List.map_cons, List.map_nil, List.mem_append, List.mem_cons,
          List.mem_singleton, List.not_mem_nil, or_false, hkey, hnew]
        exact or_comm
      · intro hlen
        have hn : n = ⟨step, noteIndex, 1⟩ := by
          have h1 := hlen n (List.mem_cons_self _ _)
          cases n
          simp only [PianoNote.mk.injEq]
          exact ⟨h.1, h.2, h1⟩
        rw [hn]
        exact List.perm_append_singleton _ _
    · rw [toggleNote_cons, if_neg h]
      obtain ⟨ih1, ih2⟩ := ih hu.2
      constructor
      · intro k
        simp only [List.map_cons, List.mem_cons, ih1 k]
      · intro hlen
        exact List.Perm.cons n (ih2 (fun m hm => hlen m (List.mem_cons_of_mem _ hm)))

/-- On a list with distinct pairs, the toggle of a present pair removes exactly the
note of that pair and keeps every other note in place. -/
theorem toggleNote_present (l : List PianoNote) (step noteIndex : Nat) (hu : UniquePairs l)
    (hp : (step, noteIndex) ∈ l.map PianoNote.key) :
    toggleNote l step noteIndex
      = l.filter (fun n => decide (n.key ≠ (step, noteIndex))) := by
  unfold UniquePairs at hu
  induction l with
  | nil => simp at hp
  | cons n l ih =>
    rw [List.map_cons, List.nodup_cons] at hu
    rw [toggleNote_cons]
    split_ifs with h
    · have hkey : n.key = (step, noteIndex) := by simp [PianoNote.key, h.1, h.2]
      have habs : (step, noteIndex) ∉ l.map PianoNote.key := hkey ▸ hu.1
      rw [List.filter_cons, if_neg (by simp [hkey])]
      symm
      rw [List.filter_eq_self]
      intro m hm
      have hne : m.key ≠ (step, noteIndex) := by
        intro he
        exact habs (he ▸ List.mem_map_of_mem _ hm)
      simpa using hne
    · have hkey : n.key ≠ (step, noteIndex) := by
        intro he
        simp only [PianoNote.key, Prod.mk.injEq] at he
        exact h he
      have hp2 : (step, noteIndex) ∈ l.map PianoNote.key := by
        rw [List.map_cons, List.mem_cons] at hp
        rcases hp with hp | hp
        · exact absurd hp.symm hkey
        · exact hp
      rw [List.filter_cons, if_pos (by simpa using hkey), ih hu.2 hp2]

theorem not_mem_keys_filter (l : List PianoNote) (step noteIndex : Nat) :
    (step, noteIndex) ∉
      (l.filter (fun n => decide (n.key ≠ (step, noteIndex)))).map PianoNote.key := by
  intro h
  obtain ⟨n, hn, hk⟩ := List.mem_map.mp h
  have := (List.mem_filter.mp hn).2
  simp only [ne_eq, decide_not, Bool.not_eq_true', decide_eq_false_iff_not] at this
  exact this hk

/-- Claim C5: on a note list in which each `(step, noteIndex)` pair appears at most once,
two calls of `toggleNoteOnPianoRoll` with the same pair leave the membership of the
list as it was: the same set of pairs, the same notes (a permutation of the list)
when the notes have length 1.  An absent pair is added at the end by the first call
and removed by the second, which gives back the very same list.  A present pair is
removed by the first call (exactly its note goes, every other note stays in place)
and re-added at the end, with length 1, by the second. -/
theorem toggleNoteOnPianoRoll_twice (s : State) (step noteIndex : Nat)
    (hu : UniquePairs s.pianoNotes) :
    (∀ k, k ∈ (toggleNoteOnPianoRoll (toggleNoteOnPianoRoll s step noteIndex) step
          noteIndex).pianoNotes.map PianoNote.key ↔ k ∈ s.pianoNotes.map PianoNote.key) ∧
    ((∀ n ∈ s.pianoNotes, n.length = 1) →
      (toggleNoteOnPianoRoll (toggleNoteOnPianoRoll s step noteIndex) step
        noteIndex).pianoNotes.Perm s.pianoNotes) ∧
    ((step, noteIndex) ∉ s.pianoNotes.map PianoNote.key →
      (toggleNoteOnPianoRoll s step noteIndex).pianoNotes
          = s.pianoNotes ++ [⟨step, noteIndex, 1⟩] ∧
      toggleNoteOnPianoRoll (toggleNoteOnPianoRoll s step noteIndex) step noteIndex = s) ∧
    ((step, noteIndex) ∈ s.pianoNotes.map PianoNote.key →
      (toggleNoteOnPianoRoll s step noteIndex).pianoNotes
          = s.pianoNotes.filter (fun n => decide (n.key ≠ (step, noteIndex))) ∧
      (step, noteIndex) ∉ (toggleNoteOnPianoRoll s step noteIndex).pianoNotes.map PianoNote.key ∧
      (toggleNoteOnPianoRoll (toggleNoteOnPianoRoll s step noteIndex) step noteIndex).pianoNotes
          = s.pianoNotes.filter (fun n => decide (n.key ≠ (step, noteIndex)))
            ++ [⟨step, noteIndex, 1⟩]) := by
  refine ⟨(toggleNote_twice s.pianoNotes step noteIndex hu).1,
    (toggleNote_twice s.pianoNotes step noteIndex hu).2, ?_, ?_⟩
  · intro habs
    refine ⟨toggleNote_absent _ _ _ habs, ?_⟩
    simp only [toggleNoteOnPianoRoll]
    rw [toggleNote_absent _ _ _ habs, toggleNote_append_new _ _ _ habs]
  · intro hp
    have h1 := toggleNote_present s.pianoNotes step noteIndex hu hp
    simp only [toggleNoteOnPianoRoll]
    rw [h1]
    exact ⟨rfl, not_mem_keys_filter _ _ _,
      toggleNote_absent _ _ _ (not_mem_keys_filter _ _ _)⟩

theorem toggleNoteOnPianoRoll_twice_witness :
    (∀ k, k ∈ (toggleNoteOnPianoRoll (toggleNoteOnPianoRoll twoNoteState 1 1) 1
          1).pianoNotes.map PianoNote.key ↔ k ∈ twoNoteState.pianoNotes.map PianoNote.key) ∧
    ((∀ n ∈ twoNoteState.pianoNotes, n.length = 1) →
      (toggleNoteOnPianoRoll (toggleNoteOnPianoRoll twoNoteState 1 1) 1
        1).pianoNotes.Perm twoNoteState.pianoNotes) ∧
    ((1, 1) ∉ twoNoteState.pianoNotes.map PianoNote.key →
      (toggleNoteOnPianoRoll twoNoteState 1 1).pianoNotes
          = twoNoteState.pianoNotes ++ [⟨1, 1, 1⟩] ∧
      toggleNoteOnPianoRoll (toggleNoteOnPianoRoll twoNoteState 1 1) 1 1 = twoNoteState) ∧
    ((1, 1) ∈ twoNoteState.pianoNotes.map PianoNote.key →
      (toggleNoteOnPianoRoll twoNoteState 1 1).pianoNotes
          = twoNoteState.pianoNotes.filter (fun n => decide (n.key ≠ (1, 1))) ∧
      (1, 1) ∉ (toggleNoteOnPianoRoll twoNoteState 1 1).pianoNotes.map PianoNote.key ∧
      (toggleNoteOnPianoRoll (toggleNoteOnPianoRoll twoNoteState 1 1) 1 1).pianoNotes
          = twoNoteState.pianoNotes.filter (fun n => decide (n.key ≠ (1, 1)))
            ++ [⟨1, 1, 1⟩]) :=
  toggleNoteOnPianoRoll_twice twoNoteState 1 1 (by decide)

/-! ### Project load -/

/-- Claim C6, as the code has it: loading the empty object never throws (the
function is total), sets the tempo to 120 and leaves the step grid, the note list
and the volumes exactly as they were; from the initial state the result is the
initial state, with its all-false grid, empty note list and volumes 0.7. -/
theorem loadProject_empty (s : State) :
    loadProject (some emptyProject) s = { s with bpm := 120 } ∧
    (loadProject (some emptyProject) s).bpm = 120 ∧
    (loadProject (some emptyProject) s).sequence = s.sequence ∧
    (loadProject (some emptyProject) s).pianoNotes = s.pianoNotes ∧
    (loadProject (some emptyProject) s).volumes = s.volumes ∧
    loadProject (some emptyProject) initialState = initialState ∧
    initialState.bpm = 120 ∧
    (∀ row ∈ initialState.sequence, ∀ cell ∈ row, cell = false) ∧
    initialState.pianoNotes = [] ∧
    (∀ v ∈ initialState.volumes, v = some (7 / 10)) := by
  refine ⟨rfl, rfl, rfl, rfl, rfl, rfl, rfl, ?_, rfl, ?_⟩
  · intro row hrow cell hcell
    simp only [initialState, initSequence, List.mem_map] at hrow
    obtain ⟨_, _, rfl⟩ := hrow
    exact List.eq_of_mem_replicate hcell
  · intro v hv
    simp only [initialState, initVolumes, List.mem_map] at hv
    obtain ⟨_, _, rfl⟩ := hv
    rfl

/-- Claim C6 as stated fails: after edits, loading the empty object leaves the
switched-on cell, the added note and the changed volume in place, so the project is
not at its initial-state defaults. -/
theorem loadProject_empty_keeps_edits :
    (loadProject (some emptyProject) editedState).bpm = 120 ∧
    ((loadProject (some emptyProject) editedState).sequence.getD 0 []).getD 0 false = true ∧
    (loadProject (some emptyProject) editedState).pianoNotes = [⟨3, 5, 1⟩] ∧
    (loadProject (some emptyProject) editedState).volumes.getD 1 none = some (1 / 5) ∧
    ¬ ((∀ row ∈ (loadProject (some emptyProject) editedState).sequence,
          ∀ cell ∈ row, cell = false) ∧
        (loadProject (some emptyProject) editedState).pianoNotes = []) := by
  refine ⟨rfl, by decide, by decide, rfl, ?_⟩
  intro h
  exact absurd h.2 (by decide)

/-- Claim C9, as the code has it: the pairs of the note list are distinct in the
initial state, every `toggleNoteOnPianoRoll` keeps them distinct, and `loadProject`
keeps them distinct when the note list of the loaded file, if it has one, has
distinct pairs (the list is installed as it is, without a check). -/
theorem uniquePairs_preserved (s : State) (step noteIndex : Nat) (parsed : Option Project)
    (hu : UniquePairs s.pianoNotes)
    (hfile : ∀ p ns, parsed = some p → p.pianoNotes = some ns → UniquePairs ns) :
    UniquePairs initialState.pianoNotes ∧
    UniquePairs (toggleNoteOnPianoRoll s step noteIndex).pianoNotes ∧
    UniquePairs (loadProject parsed s).pianoNotes := by
  refine ⟨by simp [UniquePairs, initialState], uniquePairs_toggleNote _ _ _ hu, ?_⟩
  cases parsed with
  | none => exact hu
  | some p =>
    have hp := hfile p
    obtain ⟨b, q, ns, vs⟩ := p
    cases ns with
    | none => cases q <;> cases vs <;> exact hu
    | some ns =>
      have hns := hp ns rfl rfl
      cases q <;> cases vs <;> exact hns

theorem uniquePairs_preserved_witness :
    UniquePairs initialState.pianoNotes ∧
    UniquePairs (toggleNoteOnPianoRoll editedState 3 5).pianoNotes ∧
    UniquePairs (loadProject (some oneNoteProject) editedState).pianoNotes :=
  uniquePairs_preserved editedState 3 5 (some oneNoteProject)
    (by decide)
    (by
      intro p ns hp hns
      cases hp
      cases hns
      decide)

/-- Claim C9 as stated fails for `loadProject`: from the initial state, whose note
list has distinct pairs, loading a file that lists the pair (0, 0) twice installs
both notes. -/
theorem loadProject_duplicate_pairs :
    UniquePairs initialState.pianoNotes ∧
    (loadProject (some duplicateProject) initialState).pianoNotes = [⟨0, 0, 1⟩, ⟨0, 0, 1⟩] ∧
    ¬ UniquePairs (loadProject (some duplicateProject) initialState).pianoNotes := by
  refine ⟨by decide, rfl, by decide⟩

/-! ### Live tick -/

theorem instruments_enum : instruments.enum =
    [(0, ⟨"Kick", 150, .kick⟩), (1, ⟨"Snare", 100, .snare⟩), (2, ⟨"HiHat", 6000, .hihat⟩),
      (3, ⟨"Synth", 440, .synth⟩)] := rfl

theorem foldlM_notes {α : Type} (P : PianoNote → Prop) [DecidablePred P]
    (g : PianoNote → ℚ → Voice α) (v3 : ℚ) (l : List PianoNote) :
    ∀ out : List (Voice α),
      l.foldlM (fun out note =>
          if P note then (withVolume (g note) (some v3)).bind (fun vs => some (out ++ vs))
          else some out) out
        = some (out ++ (l.filter (fun n => decide (P n))).map (fun n => g n v3)) := by
  generalize hf : (fun (out : List (Voice α)) (note : PianoNote) =>
      if P note then (withVolume (g note) (some v3)).bind (fun vs => some (out ++ vs))
      else some out) = f
  have hfn : ∀ out n, f out n = if P n then some (out ++ [g n v3]) else some out := by
    intro out n
    rw [← hf]
    rfl
  induction l with
  | nil => intro out; simp
  | cons n l ih =>
    intro out
    rw [List.foldlM_cons, hfn]
    by_cases h : P n
    · rw [if_pos h]
      show l.foldlM f (out ++ [g n v3]) = _
      rw [ih, List.filter_cons, if_pos (by simpa using h)]
      simp
    · rw [if_neg h]
      show l.foldlM f out = _
      rw [ih, List.filter_cons, if_neg (by simpa using h)]

theorem playPianoRollStep_eq {α : Type} [Field α] (semitoneRatio : α) (s : State) (time : ℚ)
    (step : Nat) (h : (s.volumes.getD 3 none).isSome = true) :
    playPianoRollStep semitoneRatio s time step = some (noteVoices semitoneRatio s time step) := by
  obtain ⟨v3, hv3⟩ := Option.isSome_iff_exists.mp h
  have := foldlM_notes (fun n => n.step = step)
    (fun n v => playSynthNote time (noteFreq semitoneRatio n.noteIndex) v) v3 s.pianoNotes []
  unfold playPianoRollStep noteVoices volumeAt
  rw [hv3]
  simpa [playSynthNote] using this

theorem rows_of_length {β : Type} (l : List β) (h : 4 ≤ l.length) :
    ∃ a b c d rest, l = a :: b :: c :: d :: rest := by
  match l, h with
  | a :: b :: c :: d :: rest, _ => exact ⟨a, b, c, d, rest, rfl⟩

theorem playStepSequencerStep_eq {α : Type} (s : State) (time : ℚ) (step : Nat)
    (h : HasRowsAndVolumes s) :
    playStepSequencerStep s time step = some (triggeredDrumVoices s time step : List (Voice α)) := by
  obtain ⟨hrows, hvol⟩ := h
  obtain ⟨r0, r1, r2, r3, rest, hseq⟩ := rows_of_length s.sequence hrows
  obtain ⟨v0, hv0⟩ := Option.isSome_iff_exists.mp (hvol 0 (by decide))
  obtain ⟨v1, hv1⟩ := Option.isSome_iff_exists.mp (hvol 1 (by decide))
  obtain ⟨v2, hv2⟩ := Option.isSome_iff_exists.mp (hvol 2 (by decide))
  rw [List.getD_eq_getElem?_getD] at hv0 hv1 hv2
  unfold playStepSequencerStep triggeredDrumVoices
  rw [instruments_enum]
  simp only [List.foldlM, playStepSequencerInstrument, cell, volumeAt, hseq,
    withVolume, playKick, playSnare, playHiHat]
  cases h0 : r0[step]?.getD false <;> cases h1 : r1[step]?.getD false <;>
    cases h2 : r2[step]?.getD false <;> cases h3 : r3[step]?.getD false <;>
    simp [h0, h1, h2, h3, hv0, hv1, hv2, List.filter]

theorem triggeredDrumVoices_eq {α : Type} (s : State) (time : ℚ) (step : Nat) :
    (triggeredDrumVoices s time step : List (Voice α))
      = (if cell s 0 step then [playKick time (volumeAt s 0)] else [])
        ++ (if cell s 1 step then [playSnare time (volumeAt s 1)] else [])
        ++ (if cell s 2 step then [playHiHat time (volumeAt s 2)] else []) := by
  unfold triggeredDrumVoices
  rw [instruments_enum]
  cases h0 : cell s 0 step <;> cases h1 : cell s 1 step <;> cases h2 : cell s 2 step <;>
    cases h3 : cell s 3 step <;>
    simp [List.filter, h0, h1, h2, h3, playKick, playSnare, playHiHat]

theorem liveTick_eq {α : Type} [Field α] (semitoneRatio : α) (s : State) (time : ℚ) (step : Nat)
    (h : HasRowsAndVolumes s) :
    liveTick semitoneRatio s time step
      = some (triggeredDrumVoices s time step ++ noteVoices semitoneRatio s time step) := by
  unfold liveTick
  rw [playStepSequencerStep_eq s time step h,
    playPianoRollStep_eq semitoneRatio s time step (h.2 3 (by decide))]
  rfl

/-- Claim C4, as the code has it: one live tick at `step` triggers exactly one voice
for each of the instruments 0, 1, 2 (kick, snare, hi-hat) whose step cell is true,
by the generator of that instrument at the volume of that instrument, then one
synth voice at volume slot 3 for every piano-roll note whose `step` is this step,
and no other voice (a true cell of instrument 3 triggers nothing); with only the
kick cell of step 0 true and no notes, the tick at step 0 triggers exactly one
kick voice. -/
theorem liveTick_voices {α : Type} [Field α] (semitoneRatio : α) (s : State) (time : ℚ)
    (step : Nat) (h : HasRowsAndVolumes s) :
    liveTick semitoneRatio s time step
      = some ((if cell s 0 step then [playKick time (volumeAt s 0)] else [])
          ++ (if cell s 1 step then [playSnare time (volumeAt s 1)] else [])
          ++ (if cell s 2 step then [playHiHat time (volumeAt s 2)] else [])
          ++ noteVoices semitoneRatio s time step) ∧
    (cell s 0 0 = true → cell s 1 0 = false → cell s 2 0 = false → s.pianoNotes = [] →
      liveTick semitoneRatio s time 0 = some [playKick time (volumeAt s 0)]) := by
  constructor
  · rw [liveTick_eq semitoneRatio s time step h, triggeredDrumVoices_eq]
  · intro h0 h1 h2 hn
    rw [liveTick_eq semitoneRatio s time 0 h, triggeredDrumVoices_eq]
    simp [h0, h1, h2, hn, noteVoices]

theorem hasRowsAndVolumes_initialState : HasRowsAndVolumes initialState := by
  constructor
  · decide
  · intro i hi
    have : i < 4 := hi
    interval_cases i <;> rfl

theorem hasRowsAndVolumes_kickOnlyState : HasRowsAndVolumes kickOnlyState := by
  constructor
  · decide
  · intro i hi
    have : i < 4 := hi
    interval_cases i <;> rfl

theorem hasRowsAndVolumes_synthCellState : HasRowsAndVolumes synthCellState := by
  constructor
  · decide
  · intro i hi
    have : i < 4 := hi
    interval_cases i <;> rfl

theorem liveTick_voices_witness :
    liveTick (1 : ℚ) kickOnlyState 0 0
      = some ((if cell kickOnlyState 0 0 then [playKick 0 (volumeAt kickOnlyState 0)] else [])
          ++ (if cell kickOnlyState 1 0 then [playSnare 0 (volumeAt kickOnlyState 1)] else [])
          ++ (if cell kickOnlyState 2 0 then [playHiHat 0 (volumeAt kickOnlyState 2)] else [])
          ++ noteVoices 1 kickOnlyState 0 0) ∧
    (cell kickOnlyState 0 0 = true → cell kickOnlyState 1 0 = false →
      cell kickOnlyState 2 0 = false → kickOnlyState.pianoNotes = [] →
      liveTick (1 : ℚ) kickOnlyState 0 0 = some [playKick 0 (volumeAt kickOnlyState 0)]) :=
  liveTick_voices 1 kickOnlyState 0 0 hasRowsAndVolumes_kickOnlyState

/-- Claim C4 as stated fails for instrument 3: with the synth cell of step 0 switched
on, the state has a row and a volume for every instrument, the claim asks for one
voice (its list of claimed voices has one element, of kind synth), and the tick at
step 0 triggers no voice at all. -/
theorem liveTick_synth_cell_silent :
    HasRowsAndVolumes synthCellState ∧
    cell synthCellState 3 0 = true ∧
    ((claimedDrumVoices synthCellState 0 0 : List (Voice ℚ)).map Voice.kind) = [SynthType.synth] ∧
    liveTick (1 : ℚ) synthCellState 0 0 = some [] := by
  refine ⟨hasRowsAndVolumes_synthCellState, by decide, by decide, ?_⟩
  rw [liveTick_eq 1 synthCellState 0 0 hasRowsAndVolumes_synthCellState, triggeredDrumVoices_eq]
  have h0 : cell synthCellState 0 0 = false := by decide
  have h1 : cell synthCellState 1 0 = false := by decide
  have h2 : cell synthCellState 2 0 = false := by decide
  have hn : synthCellState.pianoNotes = [] := rfl
  simp [h0, h1, h2, hn, noteVoices]

/-! ### Note frequencies -/

theorem foldlM_forall {β X : Type} (Q : β → Prop) (f : List β → X → Option (List β))
    (l : List X)
    (hf : ∀ out x out', x ∈ l → f out x = some out' → (∀ v ∈ out, Q v) → ∀ v ∈ out', Q v) :
    ∀ (out out' : List β), l.foldlM f out = some out' →
      (∀ v ∈ out, Q v) → ∀ v ∈ out', Q v := by
  induction l with
  | nil =>
    intro out out' h hq
    simp only [List.foldlM_nil] at h
    cases h
    exact hq
  | cons x l ih =>
    intro out out' h hq
    rw [List.foldlM_cons] at h
    cases hfx : f out x with
    | none => rw [hfx] at h; cases h
    | some mid =>
      rw [hfx] at h
      exact ih (fun o y o' hy => hf o y o' (List.mem_cons_of_mem _ hy)) mid out' h
        (hf out x mid (List.mem_cons_self _ _) hfx hq)

/-- A successful run of the body of the export loop splits into its two inner loops. -/
theorem exportStep_some {α : Type} [Field α] (semitoneRatio : α) (s : State) (barStep : Nat)
    (vs : List (Voice α)) (h : exportStep semitoneRatio s barStep = some vs) :
    ∃ drums notes,
      instruments.enum.foldlM
        (fun out p => do
          let vs ← exportInstrument s (barStep * ((60 / s.bpm) / 4)) barStep p.1 p.2
          pure (out ++ vs)) [] = some drums ∧
      s.pianoNotes.foldlM
        (fun out note =>
          if note.step = barStep % stepsCount then do
            let freq := noteFreq semitoneRatio note.noteIndex
            let vs ← withVolume (playSynthNoteOffline (barStep * ((60 / s.bpm) / 4)) freq)
              (s.volumes.getD 3 none)
            pure (out ++ vs)
          else pure out) [] = some notes ∧
      vs = drums ++ notes := by
  unfold exportStep at h
  simp only [Option.bind_eq_bind, Option.bind_eq_some, Option.pure_def, Option.some.injEq] at h
  obtain ⟨drums, hd, notes, hn, rfl⟩ := h
  exact ⟨drums, notes, hd, hn, rfl⟩

/-- A successful run of `liveTick` splits into its two step functions. -/
theorem liveTick_some {α : Type} [Field α] (semitoneRatio : α) (s : State) (time : ℚ)
    (step : Nat) (vs : List (Voice α)) (h : liveTick semitoneRatio s time step = some vs) :
    ∃ drums notes, playStepSequencerStep s time step = some drums ∧
      playPianoRollStep semitoneRatio s time step = some notes ∧ vs = drums ++ notes := by
  unfold liveTick at h
  simp only [Option.bind_eq_bind, Option.bind_eq_some, Option.pure_def, Option.some.injEq] at h
  obtain ⟨drums, hd, notes, hn, rfl⟩ := h
  exact ⟨drums, notes, hd, hn, rfl⟩

theorem withVolume_some {α : Type} (g : ℚ → Voice α) (vol : Option ℚ) (vs : List (Voice α))
    (h : withVolume g vol = some vs) : ∃ q, vol = some q ∧ vs = [g q] := by
  cases vol with
  | none => cases h
  | some q => exact ⟨q, rfl, by simpa [withVolume] using h.symm⟩

theorem mem_of_getD_eq_some {β : Type} (l : List (Option β)) (i : Nat) (q : β)
    (h : l.getD i none = some q) : some q ∈ l := by
  rw [List.getD_eq_getElem?_getD] at h
  cases hi : l[i]? with
  | none => rw [hi] at h; cases h
  | some o =>
    rw [hi] at h
    simp only [Option.getD_some] at h
    subst h
    exact List.getElem?_mem hi

theorem playStepSequencerInstrument_voice {α : Type} (s : State) (time : ℚ) (step i : Nat)
    (instrument : Instrument) (vs : List (Voice α))
    (h : playStepSequencerInstrument s time step i instrument = some vs) :
    ∀ v ∈ vs, DrumVoiceOf s Sink.live time v := by
  unfold playStepSequencerInstrument at h
  cases hrow : s.sequence[i]? with
  | none => rw [hrow] at h; cases h
  | some row =>
    rw [hrow] at h
    simp only [Option.bind_eq_bind, Option.some_bind] at h
    split_ifs at h with hc
    · cases hty : instrument.type <;> rw [hty] at h <;> simp only at h
      · obtain ⟨q, hq, rfl⟩ := withVolume_some _ _ _ h
        intro v hv
        rw [List.mem_singleton] at hv
        subst hv
        exact ⟨rfl, rfl, rfl, by simp [playKick], mem_of_getD_eq_some _ _ _ hq⟩
      · obtain ⟨q, hq, rfl⟩ := withVolume_some _ _ _ h
        intro v hv
        rw [List.mem_singleton] at hv
        subst hv
        exact ⟨rfl, rfl, rfl, by simp [playSnare], mem_of_getD_eq_some _ _ _ hq⟩
      · obtain ⟨q, hq, rfl⟩ := withVolume_some _ _ _ h
        intro v hv
        rw [List.mem_singleton] at hv
        subst hv
        exact ⟨rfl, rfl, rfl, by simp [playHiHat], mem_of_getD_eq_some _ _ _ hq⟩
      · cases h
        intro v hv
        cases hv
    · cases h
      intro v hv
      cases hv

theorem exportInstrument_voice {α : Type} (s : State) (time : ℚ) (barStep i : Nat)
    (instrument : Instrument) (vs : List (Voice α))
    (h : exportInstrument s time barStep i instrument = some vs) :
    ∀ v ∈ vs, DrumVoiceOf s Sink.offline time v := by
  unfold exportInstrument at h
  cases hrow : s.sequence[i]? with
  | none => rw [hrow] at h; cases h
  | some row =>
    rw [hrow] at h
    simp only [Option.bind_eq_bind, Option.some_bind] at h
    split_ifs at h with hc
    · cases hty : instrument.type <;> rw [hty] at h <;> simp only at h
      · obtain ⟨q, hq, rfl⟩ := withVolume_some _ _ _ h
        intro v hv
        rw [List.mem_singleton] at hv
        subst hv
        exact ⟨rfl, rfl, rfl, by simp [playKickOffline], mem_of_getD_eq_some _ _ _ hq⟩
      · obtain ⟨q, hq, rfl⟩ := withVolume_some _ _ _ h
        intro v hv
        rw [List.mem_singleton] at hv
        subst hv
        exact ⟨rfl, rfl, rfl, by simp [playSnareOffline], mem_of_getD_eq_some _ _ _ hq⟩
      · obtain ⟨q, hq, rfl⟩ := withVolume_some _ _ _ h
        intro v hv
        rw [List.mem_singleton] at hv
        subst hv
        exact ⟨rfl, rfl, rfl, by simp [playHiHatOffline], mem_of_getD_eq_some _ _ _ hq⟩
      · cases h
        intro v hv
        cases hv
    · cases h
      intro v hv
      cases hv

/-- Fold of a loop body that appends the voices of one item to the output. -/
theorem foldlM_append_forall {β X : Type} (Q : β → Prop) (body : X → Option (List β))
    (l : List X) (hbody : ∀ x vs, x ∈ l → body x = some vs → ∀ v ∈ vs, Q v)
    (out' : List β)
    (h : l.foldlM (fun out x => (body x).bind (fun vs => some (out ++ vs))) [] = some out') :
    ∀ v ∈ out', Q v := by
  refine foldlM_forall Q _ l ?_ [] out' h (by simp)
  intro out x out'' hx hfx hq v hv
  simp only [Option.bind_eq_some, Option.some.injEq] at hfx
  obtain ⟨vs, hvs, rfl⟩ := hfx
  rcases List.mem_append.mp hv with h1 | h1
  · exact hq v h1
  · exact hbody x vs hx hvs v h1

theorem playStepSequencerStep_voice {α : Type} (s : State) (time : ℚ) (step : Nat)
    (vs : List (Voice α)) (h : playStepSequencerStep s time step = some vs) :
    ∀ v ∈ vs, DrumVoiceOf s Sink.live time v :=
  foldlM_append_forall (DrumVoiceOf s Sink.live time)
    (fun p : Nat × Instrument => playStepSequencerInstrument s time step p.1 p.2)
    instruments.enum (fun p vs _ hp => playStepSequencerInstrument_voice s time step p.1 p.2 vs hp)
    vs h

theorem noteBody_voice {α : Type} [Field α] (semitoneRatio : α) (s : State) (sink : Sink)
    (time : ℚ) (step : Nat) (g : ℚ → α → ℚ → Voice α)
    (hg : ∀ f q, g time f q = ⟨sink, SynthType.synth, time, some f, q⟩)
    (vs : List (Voice α))
    (h : s.pianoNotes.foldlM
        (fun out note =>
          if note.step = step then
            (withVolume (g time (noteFreq semitoneRatio note.noteIndex))
              (s.volumes.getD 3 none)).bind (fun vs => some (out ++ vs))
          else some out) [] = some vs) :
    ∀ v ∈ vs, NoteVoiceOf semitoneRatio s sink time step v := by
  refine foldlM_forall _ _ s.pianoNotes ?_ [] vs h (by simp)
  intro out note out' hmem hf hq v hv
  split_ifs at hf with hs
  · simp only [Option.bind_eq_some, Option.some.injEq] at hf
    obtain ⟨ws, hws, rfl⟩ := hf
    obtain ⟨q, hq3, rfl⟩ := withVolume_some _ _ _ hws
    rcases List.mem_append.mp hv with h1 | h1
    · exact hq v h1
    · rw [List.mem_singleton] at h1
      subst h1
      rw [hg]
      exact ⟨rfl, rfl, rfl, mem_of_getD_eq_some _ _ _ hq3, note, hmem, hs, rfl⟩
  · cases hf
    exact hq v hv

theorem playPianoRollStep_voice {α : Type} [Field α] (semitoneRatio : α) (s : State) (time : ℚ)
    (step : Nat) (vs : List (Voice α))
    (h : playPianoRollStep semitoneRatio s time step = some vs) :
    ∀ v ∈ vs, NoteVoiceOf semitoneRatio s Sink.live time step v :=
  noteBody_voice semitoneRatio s Sink.live time step (fun t f q => playSynthNote t f q)
    (fun _ _ => rfl) vs h

/-- Every voice of one iteration of the export loop is a percussion voice or a note
voice, on the offline sink, at the start time of the iteration. -/
theorem exportStep_voice {α : Type} [Field α] (semitoneRatio : α) (s : State) (barStep : Nat)
    (vs : List (Voice α)) (h : exportStep semitoneRatio s barStep = some vs) :
    ∀ v ∈ vs, DrumVoiceOf s Sink.offline (barStep * ((60 / s.bpm) / 4)) v ∨
      NoteVoiceOf semitoneRatio s Sink.offline (barStep * ((60 / s.bpm) / 4))
        (barStep % stepsCount) v := by
  obtain ⟨drums, notes, hd, hn, rfl⟩ := exportStep_some semitoneRatio s barStep vs h
  intro v hv
  rcases List.mem_append.mp hv with h1 | h1
  · left
    exact foldlM_append_forall (DrumVoiceOf s Sink.offline (barStep * ((60 / s.bpm) / 4)))
      (fun p : Nat × Instrument =>
        exportInstrument s (barStep * ((60 / s.bpm) / 4)) barStep p.1 p.2)
      instruments.enum
      (fun p vs _ hp => exportInstrument_voice s _ barStep p.1 p.2 vs hp) drums hd v h1
  · right
    exact noteBody_voice semitoneRatio s Sink.offline _ (barStep % stepsCount)
      (fun t f q => playSynthNoteOffline t f q) (fun _ _ => rfl) notes hn v h1

/-- Every voice of a live tick is a percussion voice or a note voice, on the live sink,
at the current time. -/
theorem liveTick_voice {α : Type} [Field α] (semitoneRatio : α) (s : State) (time : ℚ)
    (step : Nat) (vs : List (Voice α)) (h : liveTick semitoneRatio s time step = some vs) :
    ∀ v ∈ vs, DrumVoiceOf s Sink.live time v ∨
      NoteVoiceOf semitoneRatio s Sink.live time step v := by
  obtain ⟨drums, notes, hd, hn, rfl⟩ := liveTick_some semitoneRatio s time step vs h
  intro v hv
  rcases List.mem_append.mp hv with h1 | h1
  · left; exact playStepSequencerStep_voice s time step drums hd v h1
  · right; exact playPianoRollStep_voice semitoneRatio s time step notes hn v h1

theorem playbackLoop_some {α : Type} [Field α] (semitoneRatio : α) (s s' : State) (time : ℚ)
    (vs : List (Voice α)) (h : playbackLoop semitoneRatio s time = some (s', vs)) :
    s' = { s with currentStep := (s.currentStep + 1) % stepsCount } := by
  unfold playbackLoop at h
  simp only [Option.bind_eq_bind, Option.bind_eq_some, Option.pure_def, Option.some.injEq,
    Prod.mk.injEq] at h
  obtain ⟨_, _, _, _, hs, _⟩ := h
  exact hs.symm

theorem toggleStep_fields (s : State) (i j : Nat) :
    (toggleStep s i j).isPlaying = s.isPlaying ∧ (toggleStep s i j).timers = s.timers ∧
      (toggleStep s i j).intervalId = s.intervalId ∧
      (toggleStep s i j).volumes = s.volumes := by
  unfold toggleStep
  split <;> exact ⟨rfl, rfl, rfl, rfl⟩

theorem mem_arrayAssign (a : List (Option ℚ)) (i : Nat) (v x : Option ℚ)
    (h : x ∈ arrayAssign none a i v) : x ∈ a ∨ x = none ∨ x = v := by
  unfold arrayAssign at h
  split_ifs at h
  · rcases List.mem_or_eq_of_mem_set h with h1 | h1
    · exact Or.inl h1
    · exact Or.inr (Or.inr h1)
  · rcases List.mem_append.mp h with h1 | h1
    · rcases List.mem_append.mp h1 with h2 | h2
      · exact Or.inl h2
      · exact Or.inr (Or.inl (List.eq_of_mem_replicate h2))
    · exact Or.inr (Or.inr (List.mem_singleton.mp h1))

theorem startPlayback_volumes (s : State) : (startPlayback s).volumes = s.volumes := by
  unfold startPlayback
  split_ifs <;> rfl

theorem stopPlayback_volumes (s : State) : (stopPlayback s).volumes = s.volumes := by
  unfold stopPlayback
  split_ifs <;> rfl

theorem timerDue_volumes (s : State) (id : Nat) (time : ℚ) :
    (timerDue s id time).volumes = s.volumes := by
  unfold timerDue
  split_ifs
  · cases h : playbackLoop (1 : ℚ) s time with
    | none => rfl
    | some r =>
      obtain ⟨s', vs⟩ := r
      rw [playbackLoop_some 1 s s' time vs h]
  · rfl

/-- Without a project file that carries a volume outside the interval from 0 to 1,
every stored volume stays in that interval: the mixer slider is the only other
writer. -/
theorem volumesInUnit_of_reachable (s : State) (h : ReachableVia FileVolumesInUnit s) :
    VolumesInUnit s := by
  induction h with
  | init =>
    intro q hq
    simp only [initialState, initVolumes, List.mem_map] at hq
    obtain ⟨_, _, hq⟩ := hq
    cases hq
    constructor <;> norm_num
  | toggleStep s i j _ ih =>
    intro q hq
    rw [(toggleStep_fields s i j).2.2.2] at hq
    exact ih q hq
  | toggleNote s step noteIndex _ ih => exact ih
  | mixer s idx value _ h0 h1 ih =>
    intro q hq
    rcases mem_arrayAssign s.volumes idx (some value) (some q) hq with h2 | h2 | h2
    · exact ih q h2
    · cases h2
    · cases h2
      exact ⟨h0, h1⟩
  | tempo s b _ ih =>
    intro q hq
    unfold bpmChange at hq
    simp only at hq
    split_ifs at hq
    · rw [startPlayback_volumes, stopPlayback_volumes] at hq
      exact ih q hq
    · exact ih q hq
  | load s parsed _ hfile ih =>
    cases parsed with
    | none => exact ih
    | some p =>
      have hp := hfile p rfl
      obtain ⟨b, sq, ns, vs⟩ := p
      cases vs with
      | none => cases sq <;> cases ns <;> exact ih
      | some vs =>
        intro q hq
        have hmem : some q ∈ vs.map some := by
          cases sq <;> cases ns <;> exact hq
        obtain ⟨q', hq', he⟩ := List.mem_map.mp hmem
        cases he
        exact hp vs rfl q hq'
  | start s _ ih =>
    intro q hq
    rw [startPlayback_volumes] at hq
    exact ih q hq
  | stop s _ ih =>
    intro q hq
    rw [stopPlayback_volumes] at hq
    exact ih q hq
  | tick s id time _ ih =>
    intro q hq
    rw [timerDue_volumes] at hq
    exact ih q hq

/-- On such a state every voice of a live tick and of an iteration of the export loop
has a volume between 0 and 1. -/
theorem voice_volume_in_unit {α : Type} [Field α] (semitoneRatio : α) (s : State)
    (h : ReachableVia FileVolumesInUnit s) (time : ℚ) (step barStep : Nat) :
    (∀ vs, liveTick semitoneRatio s time step = some vs → ∀ v ∈ vs, 0 ≤ v.vol ∧ v.vol ≤ 1) ∧
    (∀ vs, exportStep semitoneRatio s barStep = some vs → ∀ v ∈ vs, 0 ≤ v.vol ∧ v.vol ≤ 1) := by
  have hu := volumesInUnit_of_reachable s h
  constructor
  · intro vs hvs v hv
    rcases liveTick_voice semitoneRatio s time step vs hvs v hv with hd | hn
    · exact hu _ hd.2.2.2.2
    · exact hu _ hn.2.2.2.1
  · intro vs hvs v hv
    rcases exportStep_voice semitoneRatio s barStep vs hvs v hv with hd | hn
    · exact hu _ hd.2.2.2.2
    · exact hu _ hn.2.2.2.1

end SFG
